import Mathlib

/-!
# simple-shell (`shell.c`): a shallow embedding and its checked properties

The file embeds the three functions of `shell.c` that carry the shell's logic,
`get_input` (the tokenizer), `parse_args` (built-ins and process launch) and
`reap_children`, together with one pass of the prompt loop of `main`.

Modelling conventions

* A C string is a `List Char`; a `char*` that may be `NULL` is an `Option`.
  The input buffer is the list of its characters; reading at or past the end of
  the list gives the terminating NUL.
* `cmd_argv` is the list of the slots written so far.  In `get_input` the
  pointers are offsets into the buffer; `parse_args` sees the strings they point
  to (it never changes the characters, only the slots).
* Everything the operating system decides (what `fork`, `waitpid`, `open`,
  `chdir` and `execvp` answer) is a field of an environment record, so each
  function is a total, computable function of its arguments and that record.
* System calls and output are recorded, in order, as a list of `Event`s.
* A read through a null pointer, or of a slot that was never written, is
  undefined behaviour in C; the model stops there with `Ending.fault`.
-/

namespace SimpleShell

/-- A C string: the characters before the terminating NUL. -/
abbrev Str := List Char

/-- The terminating character of C strings (character code 0). -/
def NUL : Char := Char.ofNat 0

/-- C `strlen`: number of characters before the first NUL. -/
def strlen (s : List Char) : Nat := (s.takeWhile (fun c => c != NUL)).length

/-- The C string that starts at offset `p` of the buffer `buf`. -/
def cstr (buf : List Char) (p : Nat) : Str := (buf.drop p).takeWhile (fun c => c != NUL)

/-! ## `get_input` (shell.c, lines 67-114) -/

/-- State of the tokenizing loop: the buffer `in`, the slots of `cmd_argv`
written so far (offsets into the buffer) and the counter `cmd_argc`. -/
structure Tokenized where
  buf : List Char
  cmd_argv : List (Option Nat)
  cmd_argc : Nat
deriving DecidableEq, Repr

/-- Body of `for (i = 1; i < k; i++)` in `get_input` (lines 100-108). The write
`cmd_argv[cmd_argc] = &in[i + 1]` appends, because `cmd_argc` is always the
number of slots written so far (`get_input_argc_eq_length`). -/
def get_input_step (k : Nat) (s : Tokenized) (i : Nat) : Tokenized :=
  if s.buf.getD i NUL = ' ' then
    let buf := s.buf.set i NUL
    if i + 1 < k then
      if buf.getD (i + 1) NUL ≠ ' ' then
        { buf := buf, cmd_argv := s.cmd_argv ++ [some (i + 1)], cmd_argc := s.cmd_argc + 1 }
      else { s with buf := buf }
    else { s with buf := buf }
  else s

/-- The tokenizer `get_input`, from line 96 on: `line` is the content of the
buffer after `fgets` and after the trailing newline was replaced by NUL. The
result holds the modified buffer, the slots written (the last one is the null
sentinel) and the returned count. -/
def get_input (line : List Char) : Tokenized :=
  let k := strlen line
  let s := (List.range' 1 (k - 1)).foldl (get_input_step k)
    { buf := line, cmd_argv := [some 0], cmd_argc := 1 }
  { buf := s.buf, cmd_argv := s.cmd_argv ++ [none], cmd_argc := s.cmd_argc + 1 }

/-- The slots of `cmd_argv` as `parse_args` sees them: each pointer replaced by
the string it points to. -/
def argv_strings (t : Tokenized) : List (Option Str) :=
  t.cmd_argv.map (fun p => p.map (cstr t.buf))

/-- The tokens stored by `get_input`: the strings of the non-null slots. -/
def tokens (t : Tokenized) : List Str := (argv_strings t).filterMap id

/-- Number of slots of the array `char* cmd_argv[512]` of `main` (line 23). -/
def CMD_ARGV_SLOTS : Nat := 512

/-- Most characters `fgets(in, 1024, fd)` can store in `char input[1024]`. -/
def MAX_LINE : Nat := 1023

/-! ## Wait status words (glibc `bits/waitstatus.h`) and signal numbers -/

/-- Signal number of SIGINT on Linux. -/
def SIGINT : Int := 2

/-- Signal number of SIGTERM on Linux. -/
def SIGTERM : Int := 15

/-- Option flag `WNOHANG` of `waitpid`. -/
def WNOHANG : Int := 1

/-- The macro `WTERMSIG(status)`, `status & 0x7f`. -/
def WTERMSIG (status : Int) : Int := status % 128

/-- The macro `WEXITSTATUS(status)`, `(status & 0xff00) >> 8`. -/
def WEXITSTATUS (status : Int) : Int := (status / 256) % 256

/-- The macro `WIFEXITED(status)`, `WTERMSIG(status) == 0`. -/
def WIFEXITED (status : Int) : Bool := WTERMSIG status == 0

/-- The macro `WIFSIGNALED(status)`,
`((signed char) ((status & 0x7f) + 1) >> 1) > 0`. -/
def WIFSIGNALED (status : Int) : Bool :=
  let u := status % 128 + 1
  let sc := if 128 ≤ u then u - 256 else u
  decide (0 < sc / 2)

/-- The status word of a child that ended with `exit(ret)` (`termsig = 0`) or
was killed by signal `termsig`: glibc `W_EXITCODE(ret, termsig)`. -/
def W_EXITCODE (ret termsig : Int) : Int := ret * 256 + termsig

/-! ## Events and environment -/

/-- An argument of a `printf` call. -/
inductive Arg where
  | int (n : Int)
  | str (s : Option Str)
deriving DecidableEq, Repr

/-- The observable actions of the shell, in the order they happen. -/
inductive Event where
  /-- The call `printf(fmt, args...)`. -/
  | printf (fmt : String) (args : List Arg)
  /-- The call `perror(s)`. -/
  | perror (s : Option Str)
  /-- The call `chdir(path)`. -/
  | chdir (path : Option Str)
  /-- The call `fork()`. -/
  | fork
  /-- The call `waitpid(pid, &status, options)`. -/
  | waitpid (pid : Int) (options : Int)
  /-- The call `open(path, O_RDONLY)` when `for_write` is false, and
  `open(path, O_WRONLY | O_CREAT | O_TRUNC, 0644)` when it is true -/
  | open_file (path : Option Str) (for_write : Bool)
  /-- The call `dup2(fd, newfd)`. -/
  | dup2 (fd : Int) (newfd : Int)
  /-- The call `sigaction(sig, &block_action, NULL)` with handler `SIG_IGN`. -/
  | sigaction_ignore (sig : Int)
  /-- The call `execvp(file, argv)`: `args` is what the program receives, the slots of
  `argv` before the first null one -/
  | execvp (file : Option Str) (args : List Str)
deriving DecidableEq, Repr

/-- What the operating system answers to `parse_args`. -/
structure Env where
  /-- the string `home` (`getenv("HOME")`, possibly `NULL`) -/
  home : Option Str
  /-- return value of `chdir(path)` -/
  chdir : Option Str → Int
  /-- return value of `fork()` in the continuation that is followed: the pid of
  the child in the parent, 0 in the child, negative when no process was made -/
  fork : Int
  /-- status word stored by the foreground `waitpid` -/
  wait_status : Int
  /-- return value of `open(path, O_RDONLY)` -/
  open_read : Option Str → Int
  /-- return value of `open(path, O_WRONLY | O_CREAT | O_TRUNC, 0644)` -/
  open_write : Option Str → Int
  /-- whether `execvp` fails (and so returns) -/
  execvp_fails : Bool

/-- How a call of `parse_args` ends. -/
inductive Ending where
  /-- The function returned `value` to `main`. -/
  | returned (value : Int)
  /-- The call `exit(code)` ended the process. -/
  | exited (code : Int)
  /-- The call of `execvp` succeeded: the process now runs the external program. -/
  | replaced
  /-- undefined behaviour (null pointer read, slot never written) -/
  | fault
deriving DecidableEq, Repr

/-- Result of `parse_args`: how it ended, the value of `*exit_status`
afterwards, and what it did. -/
structure Outcome where
  ending : Ending
  exit_status : Int
  trace : List Event
deriving DecidableEq, Repr

/-! ## `parse_args` (shell.c, lines 122-262) -/

/-- Local variables of `parse_args` after the scans of lines 181-203. The flags
are C `int`s (0 or 1). -/
structure Launch where
  read_flag : Int
  read_ptr : Option Str
  write_flag : Int
  write_ptr : Option Str
  background_flag : Int
  cmd_argv : List (Option Str)
deriving DecidableEq, Repr

/-- The loop `for (i = 1; i < cmd_argc - 1; i++)` of lines 181-197, run over
the list of the values `i` takes. `none` is undefined behaviour
(`strcmp` on a null slot, or a slot outside the modelled array). -/
def scan_redirect (cmd_argv : List (Option Str)) : List Nat → Option Launch
  | [] => some ⟨0, none, 0, none, 0, cmd_argv⟩
  | i :: rest =>
    match cmd_argv[i]? with
    | some (some s) =>
      if s = "<".toList then
        match cmd_argv[i + 1]? with
        | some p => some ⟨1, p, 0, none, 0, cmd_argv.set i none⟩
        | none => none
      else if s = ">".toList then
        match cmd_argv[i + 1]? with
        | some p => some ⟨0, none, 1, p, 0, cmd_argv.set i none⟩
        | none => none
      else scan_redirect cmd_argv rest
    | _ => none

/-- Lines 199-203: the test of `cmd_argv[cmd_argc - 2]` against `"&"`. -/
def scan_background (l : Launch) (cmd_argc : Nat) : Option Launch :=
  if cmd_argc < 2 then none
  else
    match l.cmd_argv[cmd_argc - 2]? with
    | some (some s) =>
      if s = "&".toList then
        some { l with background_flag := 1, cmd_argv := l.cmd_argv.set (cmd_argc - 2) none }
      else some l
    | _ => none

/-- Lines 181-203 together. -/
def scan_args (cmd_argv : List (Option Str)) (cmd_argc : Nat) : Option Launch :=
  (scan_redirect cmd_argv (List.range' 1 (cmd_argc - 2))).bind
    (fun l => scan_background l cmd_argc)

/-- What the executed program receives as its arguments: the slots of the
array before the first null one. -/
def argv_until_null : List (Option Str) → List Str
  | some s :: rest => s :: argv_until_null rest
  | _ => []

/-- The parent continuation, lines 211-222 and 261 (`spawn > 0`). -/
def parent (env : Env) (l : Launch) (exit_status : Int) : Outcome :=
  if l.background_flag ≠ 0 then
    ⟨.returned 0, exit_status,
      [.fork, .printf "background pid is %d\n" [.int env.fork]]⟩
  else
    ⟨.returned 0,
      if WIFEXITED env.wait_status then WEXITSTATUS env.wait_status else exit_status,
      [.fork, .waitpid env.fork 0]⟩

/-- The child continuation, lines 223-255 (`spawn == 0`). -/
def child (env : Env) (l : Launch) (exit_status : Int) : Outcome :=
  let fd_in := env.open_read l.read_ptr
  if l.read_flag ≠ 0 ∧ fd_in = -1 then
    ⟨.exited 1, exit_status,
      [.fork, .open_file l.read_ptr false,
        .printf "smallsh: cannot open %s for input\n" [.str l.read_ptr]]⟩
  else
    let t_in : List Event :=
      if l.read_flag ≠ 0 then
        .open_file l.read_ptr false :: (if fd_in ≠ 0 then [.dup2 fd_in 0] else [])
      else []
    let fd_out := env.open_write l.write_ptr
    let t_out : List Event :=
      if l.write_flag ≠ 0 then
        .open_file l.write_ptr true :: (if fd_out ≠ 1 then [.dup2 fd_out 1] else [])
      else []
    let t_bg : List Event :=
      if l.background_flag ≠ 0 then [.sigaction_ignore SIGINT] else []
    let file := l.cmd_argv.headD none
    let t := [Event.fork] ++ t_in ++ t_out ++ t_bg ++
      [Event.execvp file (argv_until_null l.cmd_argv)]
    match file with
    | none => ⟨.fault, exit_status, t⟩
    | some name =>
      if env.execvp_fails then
        ⟨.returned 1, exit_status, t ++ [.perror (some name)]⟩
      else ⟨.replaced, exit_status, t⟩

/-- Lines 181-262: the scans, `fork`, and the continuation chosen by the value
`fork` returned. -/
def launch (env : Env) (cmd_argv : List (Option Str)) (cmd_argc : Nat)
    (exit_status : Int) : Outcome :=
  match scan_args cmd_argv cmd_argc with
  | none => ⟨.fault, exit_status, []⟩
  | some l =>
    if 0 < env.fork then parent env l exit_status
    else if env.fork = 0 then child env l exit_status
    else ⟨.exited 1, exit_status, [.fork, .perror (some "Herror here.".toList)]⟩

/-- The function `parse_args`. `exit_status` is the value of `*exit_status` at
the call. -/
def parse_args (env : Env) (cmd_argv : List (Option Str)) (cmd_argc : Nat)
    (exit_status : Int) : Outcome :=
  match cmd_argv[0]? with
  | some (some a0) =>
    if a0 = "exit".toList then ⟨.returned 1, exit_status, []⟩
    else if a0 = "cd".toList then
      match cmd_argv[1]? with
      | none => ⟨.fault, exit_status, []⟩
      | some a1 =>
        if a1 = none ∨ a1 = some "~".toList then
          if env.chdir env.home ≠ 0 then
            ⟨.returned 0, 1,
              [.chdir env.home, .printf "Unable to change to home directory\n" []]⟩
          else ⟨.returned 0, exit_status, [.chdir env.home]⟩
        else
          if env.chdir a1 ≠ 0 then
            ⟨.returned 0, 1, [.chdir a1, .printf "Unable to change directory\n" []]⟩
          else ⟨.returned 0, exit_status, [.chdir a1]⟩
    else if a0 = "status".toList then
      ⟨.returned 0, 0, [.printf "exit value %d\n" [.int exit_status]]⟩
    else if a0.head? = some '#' ∨ a0 = [] then ⟨.returned 0, 0, []⟩
    else launch env cmd_argv cmd_argc exit_status
  | _ => ⟨.fault, exit_status, []⟩

/-- The first token selects a built-in (lines 138-172): `exit`, `cd`, `status`,
a token that starts with `#`, or the empty token. -/
def is_builtin (a0 : Str) : Bool :=
  a0 = "exit".toList ∨ a0 = "cd".toList ∨ a0 = "status".toList ∨
    a0.head? = some '#' ∨ a0 = []

/-! ## `reap_children` (shell.c, lines 266-286) -/

/-- The function `reap_children`: `exit_pid` is what
`waitpid(-1, &status, WNOHANG)` returned and `status` the content of the
variable `status` after the call (whatever the stack held before, when
`waitpid` stored nothing). The result is what the function did. -/
def reap_children (exit_pid : Int) (status : Int) : List Event :=
  [Event.waitpid (-1) WNOHANG] ++
  (if exit_pid ≠ -1 then
    (if WIFEXITED status then
      [Event.printf "background pid %d is done: exit value %d\n"
        [.int exit_pid, .int (WEXITSTATUS status)]]
    else []) ++
    (if WIFSIGNALED status then
      (if WTERMSIG status = SIGTERM then
        [Event.printf "background pid %d is done: terminated by signal %d\n"
          [.int exit_pid, .int status]]
      else [])
    else [])
  else [])

/-- The lines `reap_children` printed. -/
def printed (t : List Event) : List Event :=
  t.filter (fun e => match e with | .printf _ _ => true | _ => false)

/-! ## One pass of the prompt loop of `main` (shell.c, lines 39-58) -/

/-- What the operating system answers during one pass of the loop. -/
structure Sys where
  /-- return value of `waitpid(-1, &status, WNOHANG)` in `reap_children` -/
  reap_pid : Int
  /-- content of `status` in `reap_children` after that call -/
  reap_status : Int
  /-- the answers to `parse_args` -/
  env : Env

/-- What the process does after one pass of the loop. -/
inductive Next where
  /-- the loop runs again -/
  | again
  /-- The function `main` returned `code`: the process ends with that exit status. -/
  | main_returned (code : Int)
  /-- The call `exit(code)` inside `parse_args` ended the process. -/
  | exited (code : Int)
  /-- the process image was replaced by `execvp` -/
  | replaced
  /-- undefined behaviour -/
  | fault
deriving DecidableEq, Repr

/-- Result of one pass of the loop. -/
structure Pass where
  next : Next
  exit_status : Int
  trace : List Event
  /-- whether `reap_children` was called -/
  reaped : Bool
  /-- whether `parse_args` was called -/
  parsed : Bool
deriving DecidableEq, Repr

/-- One pass of the `do ... while (exit_loop == 0)` loop of `main`, and the
`return 0` after it, for the input line `line`. -/
def main_pass (sys : Sys) (exit_status : Int) (line : List Char) : Pass :=
  let t := get_input line
  if t.cmd_argc = 1 then ⟨.again, exit_status, [], false, false⟩
  else
    let r := reap_children sys.reap_pid sys.reap_status
    let o := parse_args sys.env (argv_strings t) t.cmd_argc exit_status
    let next : Next :=
      match o.ending with
      | .returned exit_loop => if exit_loop = 0 then .again else .main_returned 0
      | .exited code => .exited code
      | .replaced => .replaced
      | .fault => .fault
    ⟨next, o.exit_status, r ++ o.trace, true, true⟩

/-- The exit status with which the process ends after this pass, if it ends. -/
def process_exit_status (p : Pass) : Option Int :=
  match p.next with
  | .main_returned code => some code
  | .exited code => some code
  | _ => none

/-- The argument array `parse_args` receives for a list of tokens: the tokens
followed by the null sentinel. -/
def invocation (toks : List Str) : List (Option Str) := toks.map some ++ [none]

/-! ## Definitions used to state and prove the properties -/

/-- What the loop leaves in place of a character: a space becomes NUL. -/
def zap (c : Char) : Char := if c = ' ' then NUL else c

/-- Offsets at which the loop, started at offset `i` on the characters `suf`,
records a token: those right after a space and holding a non-space. -/
def starts : Nat → List Char → List Nat
  | _, [] => []
  | i, c :: rest =>
    (if c = ' ' ∧ rest.headD ' ' ≠ ' ' then [i + 1] else []) ++ starts (i + 1) rest

/-- A buffer content without NUL: a C string in full. -/
def nul_free (line : List Char) : Prop := ∀ c ∈ line, c ≠ NUL

/-- The tokens the loop records after the first one, read off the characters
that follow the first character of the line. -/
def later_tokens : List Char → List Str
  | [] => []
  | c :: rest =>
    (if c = ' ' ∧ rest.headD ' ' ≠ ' ' then [rest.takeWhile (fun x => x != ' ')] else []) ++
      later_tokens rest

/-- A piece is a word when it is not empty. -/
def is_word (t : Str) : Bool := decide (t ≠ [])

/-- The words of the specification: the maximal runs of non-space characters
of the line, from left to right (split at every space, empty pieces dropped). -/
def spec_tokens (line : List Char) : List Str := (line.splitOn ' ').filter is_word

/-- The pieces of `l.splitOn ' '` after the first one. -/
def after_first_space : List Char → List Str
  | [] => []
  | c :: cs => if c = ' ' then cs.splitOn ' ' else after_first_space cs

instance (line : List Char) : Decidable (nul_free line) := by
  unfold nul_free; infer_instance

/-- The line `a a a ... a`: `n + 1` letters separated by single spaces. -/
def spaced_letters : Nat → List Char
  | 0 => ['a']
  | n + 1 => 'a' :: ' ' :: spaced_letters n

/-- A token is a redirection marker when it is `<` or `>`. -/
def is_marker (t : Str) : Bool := t = "<".toList ∨ t = ">".toList

/-- The first redirection marker among the arguments, if there is one, has a
token after it. -/
def redirect_ok : List Str → Bool
  | [] => true
  | t :: rest => if is_marker t then !rest.isEmpty else redirect_ok rest

/-- The `execvp` calls of a trace: file and arguments. -/
def execvp_calls (t : List Event) : List (Option Str × List Str) :=
  t.filterMap (fun e => match e with | .execvp f a => some (f, a) | _ => none)

/-- The `open` calls of a trace: path, and whether the file is opened for
writing. -/
def opened (t : List Event) : List (Option Str × Bool) :=
  t.filterMap (fun e => match e with | .open_file p w => some (p, w) | _ => none)

/-- The pids the trace waited for with `waitpid`. -/
def waited (t : List Event) : List Int :=
  t.filterMap (fun e => match e with | .waitpid p _ => some p | _ => none)

/-- The number of `fork` calls of a trace. -/
def forks (t : List Event) : Nat := t.count Event.fork

/-- The local variables after the redirection scan found the marker `m`,
followed by `path`, and left the array `A`. -/
def redirected (m path : Str) (A : List (Option Str)) : Launch :=
  if m = "<".toList then ⟨1, some path, 0, none, 0, A⟩ else ⟨0, none, 1, some path, 0, A⟩

/-- An example environment: the child continuation (`fork` returned
0), every `open` gives descriptor 3, `execvp` succeeds. -/
def child_env : Env :=
  { home := some "/root".toList, chdir := fun _ => 0, fork := 0, wait_status := 0,
    open_read := fun _ => 3, open_write := fun _ => 3, execvp_fails := false }

/-- An example environment: the parent continuation; the child
has pid 4242 and ended with `exit(1)`. -/
def parent_env : Env :=
  { home := some "/root".toList, chdir := fun _ => 0, fork := 4242,
    wait_status := W_EXITCODE 1 0,
    open_read := fun _ => 3, open_write := fun _ => 3, execvp_fails := false }

/-- The child continuation where `execvp` fails. -/
def failing_exec_env : Env :=
  { home := some "/root".toList, chdir := fun _ => 0, fork := 0, wait_status := 0,
    open_read := fun _ => 3, open_write := fun _ => 3, execvp_fails := true }

/-- The child continuation where the input file cannot be opened. -/
def failing_open_env : Env :=
  { home := some "/root".toList, chdir := fun _ => 0, fork := 0, wait_status := 0,
    open_read := fun _ => -1, open_write := fun _ => 3, execvp_fails := false }

/-- The parent continuation, the child (pid 4242) having ended with exit
status 0. -/
def parent_env_child_zero : Env :=
  { home := some "/root".toList, chdir := fun _ => 0, fork := 4242,
    wait_status := W_EXITCODE 0 0,
    open_read := fun _ => 3, open_write := fun _ => 3, execvp_fails := false }

/-- An example system: no child to reap, parent continuation. -/
def parent_sys : Sys := ⟨-1, 0, parent_env⟩

/-! ## Proof devices for `get_input` -/

theorem getD_append_length (pre : List Char) (c : Char) (rest : List Char) (d : Char) :
    (pre ++ c :: rest).getD pre.length d = c := by
  induction pre with
  | nil => rfl
  | cons a pre ih => simpa [List.getD] using ih

theorem getD_append_length_succ (pre : List Char) (c : Char) (rest : List Char) (d : Char) :
    (pre ++ c :: rest).getD (pre.length + 1) d = rest.headD d := by
  induction pre with
  | nil => cases rest <;> rfl
  | cons a pre ih => simpa [List.getD] using ih

theorem set_append_length (pre : List Char) (c : Char) (rest : List Char) (d : Char) :
    (pre ++ c :: rest).set pre.length d = pre ++ d :: rest := by
  induction pre with
  | nil => rfl
  | cons a pre ih => simp [ih]

theorem get_input_step_cons (k : Nat) (pre : List Char) (c : Char) (rest : List Char)
    (argv : List (Option Nat)) (argc : Nat) (hk : k = pre.length + (rest.length + 1)) :
    get_input_step k ⟨pre ++ c :: rest, argv, argc⟩ pre.length =
      ⟨(pre ++ [zap c]) ++ rest,
        argv ++ ((if c = ' ' ∧ rest.headD ' ' ≠ ' ' then [pre.length + 1] else []).map some),
        argc + (if c = ' ' ∧ rest.headD ' ' ≠ ' ' then [pre.length + 1] else []).length⟩ := by
  subst hk
  unfold get_input_step zap
  simp only [getD_append_length, set_append_length, getD_append_length_succ]
  by_cases hc : c = ' '
  · subst hc
    cases rest with
    | nil => simp
    | cons d rest =>
      by_cases hd : d = ' '
      · simp [hd]
      · simp [hd]
  · simp [hc]

theorem get_input_loop (k : Nat) (suf : List Char) :
    ∀ (pre : List Char) (argv : List (Option Nat)) (argc : Nat),
      k = pre.length + suf.length →
      (List.range' pre.length suf.length).foldl (get_input_step k) ⟨pre ++ suf, argv, argc⟩ =
        ⟨pre ++ suf.map zap, argv ++ (starts pre.length suf).map some,
          argc + (starts pre.length suf).length⟩ := by
  induction suf with
  | nil => intro pre argv argc _; simp [starts]
  | cons c rest ih =>
    intro pre argv argc hk
    have hk2 : k = (pre ++ [zap c]).length + rest.length := by
      simp only [List.length_append, List.length_cons, List.length_nil] at hk ⊢; omega
    have h := ih (pre ++ [zap c]) (argv ++ ((if c = ' ' ∧ rest.headD ' ' ≠ ' ' then [pre.length + 1] else []).map some))
      (argc + (if c = ' ' ∧ rest.headD ' ' ≠ ' ' then [pre.length + 1] else []).length) hk2
    simp only [List.length_append, List.length_cons, List.length_nil, Nat.zero_add] at h
    rw [List.length_cons, List.range'_succ, List.foldl_cons,
      get_input_step_cons k pre c rest argv argc (by simpa using hk), h]
    simp [starts, Nat.add_assoc]

theorem strlen_of_nul_free (line : List Char) (h : nul_free line) :
    strlen line = line.length := by
  unfold strlen
  congr 1
  rw [List.takeWhile_eq_self_iff]
  intro c hc
  simpa using h c hc

theorem get_input_nil : get_input [] = ⟨[], [some 0, none], 2⟩ := by decide

theorem get_input_cons (c0 : Char) (tail : List Char) (h : nul_free (c0 :: tail)) :
    get_input (c0 :: tail) =
      ⟨c0 :: tail.map zap, some 0 :: ((starts 1 tail).map some ++ [none]),
        (starts 1 tail).length + 2⟩ := by
  have hloop := get_input_loop (1 + tail.length) tail [c0] [some 0] 1 (by simp)
  simp only [List.length_singleton, List.singleton_append] at hloop
  unfold get_input
  rw [strlen_of_nul_free _ h]
  simp only [List.length_cons, Nat.add_sub_cancel]
  rw [Nat.add_comm] at hloop
  rw [hloop]
  simp only [List.cons_append, Tokenized.mk.injEq, true_and]
  omega

theorem takeWhile_map_zap (l : List Char) (h : nul_free l) :
    (l.map zap).takeWhile (fun c => c != NUL) = l.takeWhile (fun c => c != ' ') := by
  induction l with
  | nil => rfl
  | cons a l ih =>
    have ha : a ≠ NUL := h a (List.mem_cons_self _ _)
    have hl : nul_free l := fun c hc => h c (List.mem_cons_of_mem _ hc)
    by_cases hs : a = ' '
    · simp [zap, hs]
    · simp [zap, hs, ha, ih hl]

theorem cstr_after (pre : List Char) (x : Char) (rest : List Char) (h : nul_free rest) :
    cstr (pre ++ x :: rest.map zap) (pre.length + 1) = rest.takeWhile (fun c => c != ' ') := by
  unfold cstr
  have : (pre ++ x :: rest.map zap).drop (pre.length + 1) = rest.map zap := by
    rw [show pre ++ x :: rest.map zap = (pre ++ [x]) ++ rest.map zap by simp]
    exact List.drop_left' (by simp)
  rw [this, takeWhile_map_zap rest h]

theorem map_cstr_starts (suf : List Char) :
    ∀ (pre : List Char), nul_free suf →
      (starts pre.length suf).map (cstr (pre ++ suf.map zap)) = later_tokens suf := by
  induction suf with
  | nil => intro pre _; rfl
  | cons c rest ih =>
    intro pre h
    have hrest : nul_free rest := fun c hc => h c (List.mem_cons_of_mem _ hc)
    have h1 := ih (pre ++ [zap c]) hrest
    simp only [List.length_append, List.length_singleton, List.append_assoc,
      List.singleton_append] at h1
    simp only [starts, later_tokens, List.map_append, List.map_cons, h1]
    congr 1
    split
    · simp only [List.map_cons, List.map_nil]
      rw [cstr_after pre (zap c) rest hrest]
    · rfl

theorem splitOn_space (l : List Char) :
    l.splitOn ' ' = l.takeWhile (fun c => c != ' ') :: after_first_space l := by
  induction l with
  | nil => rfl
  | cons c cs ih =>
    unfold List.splitOn at ih ⊢
    rw [List.splitOnP_cons]
    by_cases hc : c = ' '
    · simp [hc, after_first_space, List.splitOn]
    · simp [hc, after_first_space, ih]

theorem filter_after_first_space (l : List Char) :
    (after_first_space l).filter is_word = later_tokens l := by
  induction l with
  | nil => rfl
  | cons c cs ih =>
    by_cases hc : c = ' '
    · simp only [after_first_space, hc, if_true, later_tokens, true_and]
      rw [splitOn_space cs, List.filter_cons, ih]
      cases cs with
      | nil => simp [is_word]
      | cons d rest =>
        by_cases hd : d = ' '
        · simp [hd, is_word]
        · simp [hd, is_word]
    · simp [after_first_space, hc, later_tokens, ih]

theorem spec_tokens_cons (c0 : Char) (tail : List Char) (h0 : c0 ≠ ' ') :
    spec_tokens (c0 :: tail) =
      (c0 :: tail.takeWhile (fun c => c != ' ')) :: later_tokens tail := by
  unfold spec_tokens
  rw [splitOn_space, List.filter_cons, filter_after_first_space]
  simp [h0, later_tokens, is_word]

theorem cstr_zero (c0 : Char) (tail : List Char) (h : nul_free (c0 :: tail)) :
    cstr (c0 :: tail.map zap) 0 = c0 :: tail.takeWhile (fun c => c != ' ') := by
  have h0 : c0 ≠ NUL := h c0 (List.mem_cons_self _ _)
  have ht : nul_free tail := fun c hc => h c (List.mem_cons_of_mem _ hc)
  simp [cstr, h0, takeWhile_map_zap tail ht]

/-- What `get_input` stores for a line that is not empty, whatever its first
character: the first token starts at offset 0 and runs to the first space at
an offset of at least 1. -/
theorem argv_strings_get_input_cons (c0 : Char) (tail : List Char)
    (h : nul_free (c0 :: tail)) :
    argv_strings (get_input (c0 :: tail)) =
      invocation ((c0 :: tail.takeWhile (fun c => c != ' ')) :: later_tokens tail) := by
  have ht : nul_free tail := fun c hc => h c (List.mem_cons_of_mem _ hc)
  have hm := map_cstr_starts tail [c0] ht
  simp only [List.length_singleton, List.singleton_append] at hm
  rw [get_input_cons c0 tail h]
  simp only [argv_strings, invocation, List.map_cons, List.map_append, List.map_nil,
    Option.map_some', Option.map_none', List.cons_append, cstr_zero c0 tail h, List.map_map]
  rw [← hm]
  simp [Function.comp_def]

theorem filterMap_invocation (toks : List Str) : (invocation toks).filterMap id = toks := by
  simp [invocation, List.filterMap_append, List.filterMap_map]

theorem not_space_of_mem_splitOn (l : List Char) :
    ∀ t ∈ l.splitOn ' ', ' ' ∉ t := by
  induction l with
  | nil => intro t ht; simp at ht; simp [ht]
  | cons c cs ih =>
    intro t ht
    rw [splitOn_space] at ht
    rcases List.mem_cons.mp ht with h | h
    · subst h
      intro hmem
      have := List.mem_takeWhile_imp hmem
      simp at this
    · by_cases hc : c = ' '
      · simp only [after_first_space, hc, if_true] at h
        exact ih t h
      · simp only [after_first_space, hc, if_false] at h
        exact ih t (by rw [splitOn_space]; exact List.mem_cons_of_mem _ h)

theorem get_input_argc_eq_length (line : List Char) :
    (get_input line).cmd_argc = (get_input line).cmd_argv.length := by
  have step : ∀ (k : Nat) (l : List Nat) (s : Tokenized), s.cmd_argc = s.cmd_argv.length →
      (l.foldl (get_input_step k) s).cmd_argc = (l.foldl (get_input_step k) s).cmd_argv.length := by
    intro k l
    induction l with
    | nil => intro s hs; exact hs
    | cons i l ih =>
      intro s hs
      rw [List.foldl_cons]
      apply ih
      unfold get_input_step
      dsimp only
      split_ifs <;> simp [hs]
  unfold get_input
  simp only [List.length_append, List.length_singleton]
  rw [step _ _ _ rfl]

theorem two_le_get_input_argc (line : List Char) : 2 ≤ (get_input line).cmd_argc := by
  rw [get_input_argc_eq_length]
  have step : ∀ (k : Nat) (l : List Nat) (s : Tokenized), 1 ≤ s.cmd_argv.length →
      1 ≤ (l.foldl (get_input_step k) s).cmd_argv.length := by
    intro k l
    induction l with
    | nil => intro s hs; exact hs
    | cons i l ih =>
      intro s hs
      rw [List.foldl_cons]
      apply ih
      unfold get_input_step
      dsimp only
      split_ifs <;> first | exact hs | simp
  unfold get_input
  simp only [List.length_append, List.length_singleton]
  have := step (strlen line) (List.range' 1 (strlen line - 1))
    { buf := line, cmd_argv := [some 0], cmd_argc := 1 } (by simp)
  omega

/-- C1 (as amended): for every input line without NUL whose first character
exists and is not a space, the slots `get_input` writes hold exactly the
maximal runs of non-space characters of the line, in order, followed by one
null sentinel; every token is non-empty and has no space; and the returned
count is the number of tokens plus one. -/
theorem C1_get_input_tokens (line : List Char) (hnul : nul_free line)
    (hfirst : line.headD ' ' ≠ ' ') :
    argv_strings (get_input line) = invocation (spec_tokens line) ∧
    tokens (get_input line) = spec_tokens line ∧
    (∀ t ∈ spec_tokens line, t ≠ [] ∧ ' ' ∉ t) ∧
    (get_input line).cmd_argc = (spec_tokens line).length + 1 := by
  cases line with
  | nil => simp at hfirst
  | cons c0 tail =>
    have h0 : c0 ≠ ' ' := by simpa using hfirst
    have hargv : argv_strings (get_input (c0 :: tail)) = invocation (spec_tokens (c0 :: tail)) := by
      rw [argv_strings_get_input_cons c0 tail hnul, spec_tokens_cons c0 tail h0]
    refine ⟨hargv, ?_, ?_, ?_⟩
    · unfold tokens
      rw [hargv, filterMap_invocation]
    · intro t ht
      unfold spec_tokens at ht
      rw [List.mem_filter] at ht
      exact ⟨by simpa [is_word] using ht.2, not_space_of_mem_splitOn _ t ht.1⟩
    · have hlen := congrArg List.length hargv
      rw [get_input_argc_eq_length]
      simpa [argv_strings, invocation] using hlen

/-- C1 (as amended) at the line `ls  -l` (two spaces): the tokens are `ls` and
`-l`, followed by the sentinel, and the count is 3. -/
theorem C1_get_input_tokens_witness :
    nul_free "ls  -l".toList ∧ "ls  -l".toList.headD ' ' ≠ ' ' ∧
    argv_strings (get_input "ls  -l".toList) = invocation (spec_tokens "ls  -l".toList) ∧
    tokens (get_input "ls  -l".toList) = spec_tokens "ls  -l".toList ∧
    (get_input "ls  -l".toList).cmd_argc = (spec_tokens "ls  -l".toList).length + 1 :=
  ⟨by decide, by decide,
    (C1_get_input_tokens "ls  -l".toList (by decide) (by decide)).1,
    (C1_get_input_tokens "ls  -l".toList (by decide) (by decide)).2.1,
    (C1_get_input_tokens "ls  -l".toList (by decide) (by decide)).2.2.2⟩

/-- C1 (as stated) fails: the line `" ls"` has a non-space character, yet
`get_input` stores the single token `" ls"`, which contains a space, where the
maximal runs of non-space characters are the single word `"ls"`. -/
theorem C1_counterexample :
    nul_free " ls".toList ∧ " ls".toList.length ≤ MAX_LINE ∧
    (∃ c ∈ " ls".toList, c ≠ ' ') ∧
    tokens (get_input " ls".toList) = [" ls".toList] ∧
    spec_tokens " ls".toList = ["ls".toList] ∧
    tokens (get_input " ls".toList) ≠ spec_tokens " ls".toList := by
  decide

/-! ## Size of the argument array -/

theorem two_mul_length_starts (suf : List Char) :
    ∀ i, 2 * (starts i suf).length + (if suf.headD ' ' = ' ' then 0 else 1) ≤ suf.length := by
  induction suf with
  | nil => intro i; simp [starts]
  | cons c rest ih =>
    intro i
    have h := ih (i + 1)
    simp only [starts, List.length_append, List.headD_cons, List.length_cons]
    by_cases hc : c = ' '
    · by_cases hr : rest.headD ' ' = ' '
      · simp only [hc, hr, ne_eq, not_true_eq_false, and_false, if_false, if_true,
          List.length_nil] at h ⊢
        omega
      · simp only [hc, hr, ne_eq, not_false_eq_true, and_self, if_true, if_false,
          List.length_singleton] at h ⊢
        omega
    · simp only [hc, false_and, if_false, List.length_nil] at h ⊢
      split at h <;> omega

/-- The count `get_input` returns is at most `(length - 1) / 2 + 2`. -/
theorem get_input_argc_le (line : List Char) (hnul : nul_free line) :
    (get_input line).cmd_argc ≤ (line.length - 1) / 2 + 2 := by
  cases line with
  | nil => decide
  | cons c0 tail =>
    rw [get_input_cons c0 tail hnul]
    have h := two_mul_length_starts tail 1
    simp only [List.length_cons, Nat.add_sub_cancel]
    split at h <;> omega

/-- Lines of at most 1022 characters fit: the count is at most 512. -/
theorem get_input_argc_le_slots (line : List Char) (hnul : nul_free line)
    (hlen : line.length ≤ 1022) : (get_input line).cmd_argc ≤ CMD_ARGV_SLOTS := by
  have h := get_input_argc_le line hnul
  unfold CMD_ARGV_SLOTS
  omega

theorem length_spaced_letters (n : Nat) : (spaced_letters n).length = 2 * n + 1 := by
  induction n with
  | zero => rfl
  | succ n ih => simp [spaced_letters, ih]; omega

theorem nul_free_spaced_letters (n : Nat) : nul_free (spaced_letters n) := by
  induction n with
  | zero => decide
  | succ n ih =>
    intro c hc
    simp only [spaced_letters, List.mem_cons] at hc
    rcases hc with h | h | h
    · subst h; decide
    · subst h; decide
    · exact ih c h

theorem head?_spaced_letters (n : Nat) : (spaced_letters n).head? = some 'a' := by
  cases n <;> rfl

theorem length_starts_spaced_letters (n : Nat) :
    ∀ i, (starts i (spaced_letters n)).length = n := by
  induction n with
  | zero => intro i; simp [spaced_letters, starts]
  | succ n ih =>
    intro i
    simp [spaced_letters, starts, head?_spaced_letters, ih]

theorem get_input_argc_spaced_letters (n : Nat) :
    (get_input (spaced_letters n)).cmd_argc = n + 2 := by
  cases n with
  | zero => decide
  | succ n =>
    have h := get_input_cons 'a' (' ' :: spaced_letters n) (nul_free_spaced_letters (n + 1))
    have h2 : (get_input (spaced_letters (n + 1))).cmd_argc =
        (starts 1 (' ' :: spaced_letters n)).length + 2 := by
      show (get_input ('a' :: ' ' :: spaced_letters n)).cmd_argc = _
      rw [h]
    rw [h2]
    simp [starts, head?_spaced_letters, length_starts_spaced_letters]

/-- C10 fails on the code: the line of 1023 characters `a a ... a` (512
letters separated by single spaces) fits the input buffer, and `get_input`
returns 513 for it: it wrote 513 slots, the null sentinel at index 512, one
past the last slot of the 512-slot array. -/
theorem C10_sentinel_out_of_bounds :
    (spaced_letters 511).length = MAX_LINE ∧
    nul_free (spaced_letters 511) ∧
    (get_input (spaced_letters 511)).cmd_argc = 513 ∧
    (get_input (spaced_letters 511)).cmd_argv.length = 513 ∧
    ¬ (get_input (spaced_letters 511)).cmd_argc ≤ CMD_ARGV_SLOTS := by
  have h := get_input_argc_spaced_letters 511
  refine ⟨by rw [length_spaced_letters]; rfl, nul_free_spaced_letters 511, h, ?_, ?_⟩
  · rw [← get_input_argc_eq_length, h]
  · rw [h]; decide

/-! ## Proof devices for `parse_args` -/

theorem getElem?_mid (A : List Str) (b : Str) (B : List Str) (R : List (Option Str)) :
    ((A ++ b :: B).map some ++ R)[A.length]? = some (some b) := by
  induction A with
  | nil => simp
  | cons a A ih => simpa using ih

theorem getElem?_mid_succ (A : List Str) (b : Str) (B : List Str) :
    ((A ++ b :: B).map some ++ [none])[A.length + 1]? = some B.head? := by
  induction A with
  | nil => cases B <;> simp
  | cons a A ih => simpa using ih

theorem scan_redirect_no_marker (R : List (Option Str)) (B : List Str) :
    ∀ A : List Str, (∀ t ∈ B, is_marker t = false) →
      scan_redirect ((A ++ B).map some ++ R) (List.range' A.length B.length) =
        some ⟨0, none, 0, none, 0, (A ++ B).map some ++ R⟩ := by
  induction B with
  | nil => intro A _; rfl
  | cons b B ih =>
    intro A hB
    have hb : is_marker b = false := hB b (List.mem_cons_self _ _)
    have hb' : b ≠ "<".toList ∧ b ≠ ">".toList := by simpa [is_marker] using hb
    have h := ih (A ++ [b]) (fun t ht => hB t (List.mem_cons_of_mem _ ht))
    simp only [List.length_append, List.length_singleton, List.append_assoc,
      List.singleton_append] at h
    rw [List.length_cons, List.range'_succ, scan_redirect, getElem?_mid]
    simp only [hb'.1, hb'.2, if_false]
    exact h

theorem scan_redirect_marker (m : Str) (B2 : List Str) (hm : is_marker m = true)
    (B1 : List Str) :
    ∀ A : List Str, (∀ t ∈ B1, is_marker t = false) →
      scan_redirect ((A ++ (B1 ++ m :: B2)).map some ++ [none])
          (List.range' A.length (B1 ++ m :: B2).length) =
        some (if m = "<".toList then
            ⟨1, B2.head?, 0, none, 0,
              ((A ++ (B1 ++ m :: B2)).map some ++ [none]).set (A.length + B1.length) none⟩
          else
            ⟨0, none, 1, B2.head?, 0,
              ((A ++ (B1 ++ m :: B2)).map some ++ [none]).set (A.length + B1.length) none⟩) := by
  induction B1 with
  | nil =>
    intro A _
    have hm' : m = "<".toList ∨ m = ">".toList := by simpa [is_marker] using hm
    simp only [List.nil_append, List.length_cons, List.range'_succ, scan_redirect,
      getElem?_mid, getElem?_mid_succ, List.length_nil, Nat.add_zero]
    rcases hm' with h | h
    · simp [h]
    · subst h
      have : ¬ (">".toList = "<".toList) := by decide
      simp [this]
  | cons b B1 ih =>
    intro A hB
    have hb : is_marker b = false := hB b (List.mem_cons_self _ _)
    have hb' : b ≠ "<".toList ∧ b ≠ ">".toList := by simpa [is_marker] using hb
    have h := ih (A ++ [b]) (fun t ht => hB t (List.mem_cons_of_mem _ ht))
    have hlenA : (A ++ [b]).length = A.length + 1 := by simp
    rw [hlenA] at h
    simp only [List.append_assoc, List.singleton_append] at h
    rw [List.cons_append, List.length_cons, List.range'_succ, scan_redirect, getElem?_mid]
    simp only [hb'.1, hb'.2, if_false]
    rw [List.length_cons, show A.length + (B1.length + 1) = A.length + 1 + B1.length by omega]
    exact h

theorem set_mid (A : List Str) (b : Str) (B : List Str) (R : List (Option Str))
    (v : Option Str) :
    ((A ++ b :: B).map some ++ R).set A.length v = A.map some ++ v :: (B.map some ++ R) := by
  induction A with
  | nil => simp
  | cons a A ih => simp [ih]

theorem argv_until_null_map_some (L : List Str) (X : List (Option Str)) :
    argv_until_null (L.map some ++ none :: X) = L := by
  induction L with
  | nil => rfl
  | cons a L ih => simp [argv_until_null, ih]

theorem argv_until_null_set_far (L : List Str) :
    ∀ (X : List (Option Str)) (k : Nat) (v : Option Str), L.length < k →
      argv_until_null ((L.map some ++ none :: X).set k v) = L := by
  induction L with
  | nil =>
    intro X k v hk
    cases k with
    | zero => simp at hk
    | succ k => simp [argv_until_null]
  | cons a L ih =>
    intro X k v hk
    cases k with
    | zero => simp at hk
    | succ k =>
      have h := ih X k v (by simpa using hk)
      simp [argv_until_null, h]

theorem getElem?_set_far (L : List (Option Str)) :
    ∀ (j k : Nat) (v : Option Str), j ≠ k → (L.set j v)[k]? = L[k]? := by
  induction L with
  | nil => intro j k v _; simp
  | cons a L ih =>
    intro j k v hjk
    cases j with
    | zero =>
      cases k with
      | zero => simp at hjk
      | succ k => simp
    | succ j =>
      cases k with
      | zero => simp
      | succ k => simpa using ih j k v (by omega)

theorem invocation_getElem?_last (args : List Str) :
    ∀ t0 : Str, (invocation (t0 :: args))[args.length]? = some ((t0 :: args).getLast?) := by
  induction args with
  | nil => intro t0; simp [invocation]
  | cons a args ih =>
    intro t0
    have h := ih a
    simp only [invocation, List.map_cons, List.cons_append, List.length_cons,
      List.getElem?_cons_succ] at h ⊢
    rw [h]
    simp [List.getLast?_cons_cons]

/-- The background test of lines 199-203 when slot `cmd_argc - 2` still holds
the last token. -/
theorem scan_background_last (l : Launch) (t0 : Str) (args : List Str)
    (h : l.cmd_argv[args.length]? = some ((t0 :: args).getLast?)) :
    scan_background l (args.length + 2) =
      some (if (t0 :: args).getLast? = some "&".toList then
        { l with background_flag := 1, cmd_argv := l.cmd_argv.set args.length none }
      else l) := by
  unfold scan_background
  have hlast : (t0 :: args).getLast? = some ((t0 :: args).getLast (List.cons_ne_nil _ _)) :=
    List.getLast?_eq_getLast _ _
  simp only [show ¬ (args.length + 2 < 2) by omega, if_false, Nat.add_sub_cancel, h]
  rw [hlast]
  simp only [Option.some.injEq]
  split <;> rfl

theorem scan_args_no_marker (t0 : Str) (args : List Str)
    (hargs : ∀ t ∈ args, is_marker t = false) :
    scan_args (invocation (t0 :: args)) (args.length + 2) =
      some (if (t0 :: args).getLast? = some "&".toList then
        ⟨0, none, 0, none, 1, (invocation (t0 :: args)).set args.length none⟩
      else ⟨0, none, 0, none, 0, invocation (t0 :: args)⟩) := by
  have h := scan_redirect_no_marker [none] args [t0] hargs
  simp only [List.length_singleton, List.singleton_append] at h
  unfold scan_args
  simp only [Nat.add_sub_cancel]
  unfold invocation
  rw [h, Option.some_bind,
    scan_background_last _ t0 args (invocation_getElem?_last args t0)]

theorem redirected_cmd_argv (m path : Str) (A : List (Option Str)) :
    (redirected m path A).cmd_argv = A := by
  unfold redirected; split <;> rfl

theorem scan_args_marker (t0 : Str) (pre : List Str) (m path : Str) (rest : List Str)
    (hpre : ∀ t ∈ pre, is_marker t = false) (hm : is_marker m = true) :
    scan_args (invocation (t0 :: (pre ++ m :: path :: rest)))
        ((pre ++ m :: path :: rest).length + 2) =
      some (if (t0 :: (pre ++ m :: path :: rest)).getLast? = some "&".toList then
        { redirected m path
            ((invocation (t0 :: (pre ++ m :: path :: rest))).set (1 + pre.length) none) with
          background_flag := 1
          cmd_argv := ((invocation (t0 :: (pre ++ m :: path :: rest))).set (1 + pre.length)
            none).set (pre ++ m :: path :: rest).length none }
      else
        redirected m path
          ((invocation (t0 :: (pre ++ m :: path :: rest))).set (1 + pre.length) none)) := by
  have h := scan_redirect_marker m (path :: rest) hm pre [t0] hpre
  simp only [List.length_singleton, List.singleton_append, List.head?_cons] at h
  have hlast : ((invocation (t0 :: (pre ++ m :: path :: rest))).set (1 + pre.length) none)[
      (pre ++ m :: path :: rest).length]? =
      some ((t0 :: (pre ++ m :: path :: rest)).getLast?) := by
    rw [getElem?_set_far _ _ _ _ (by simp only [List.length_append, List.length_cons]; omega)]
    exact invocation_getElem?_last _ t0
  have hscan : scan_redirect (invocation (t0 :: (pre ++ m :: path :: rest)))
      (List.range' 1 (pre ++ m :: path :: rest).length) =
      some (redirected m path
        ((invocation (t0 :: (pre ++ m :: path :: rest))).set (1 + pre.length) none)) := h
  unfold scan_args
  simp only [Nat.add_sub_cancel]
  rw [hscan, Option.some_bind,
    scan_background_last _ t0 _ (by rw [redirected_cmd_argv]; exact hlast), redirected_cmd_argv]

theorem argv_until_null_marker (t0 : Str) (pre : List Str) (m path : Str) (rest : List Str) :
    argv_until_null ((invocation (t0 :: (pre ++ m :: path :: rest))).set (1 + pre.length) none) =
        t0 :: pre ∧
    argv_until_null (((invocation (t0 :: (pre ++ m :: path :: rest))).set (1 + pre.length)
        none).set (pre ++ m :: path :: rest).length none) = t0 :: pre := by
  have hset : (invocation (t0 :: (pre ++ m :: path :: rest))).set (1 + pre.length) none =
      (t0 :: pre).map some ++ none :: ((path :: rest).map some ++ [none]) := by
    have hmid := set_mid (t0 :: pre) m (path :: rest) [none] none
    rw [List.length_cons, Nat.add_comm] at hmid
    exact hmid
  rw [hset]
  exact ⟨argv_until_null_map_some (t0 :: pre) _,
    argv_until_null_set_far (t0 :: pre) _ _ _
      (by simp only [List.length_append, List.length_cons]; omega)⟩

theorem parse_args_not_builtin (env : Env) (t0 : Str) (rest : List (Option Str)) (n : Nat)
    (st : Int) (hext : is_builtin t0 = false) :
    parse_args env (some t0 :: rest) n st = launch env (some t0 :: rest) n st := by
  have h : t0 ≠ "exit".toList ∧ t0 ≠ "cd".toList ∧ t0 ≠ "status".toList ∧
      t0.head? ≠ some '#' ∧ t0 ≠ [] := by
    simpa [is_builtin, not_or] using hext
  unfold parse_args
  simp only [List.getElem?_cons_zero, h.1, h.2.1, h.2.2.1, h.2.2.2.1, h.2.2.2.2, if_false,
    or_self]

theorem execvp_calls_child (env : Env) (l : Launch) (st : Int)
    (hopen : l.read_flag ≠ 0 → env.open_read l.read_ptr ≠ -1) :
    execvp_calls (child env l st).trace = [(l.cmd_argv.headD none, argv_until_null l.cmd_argv)] := by
  unfold child
  have h1 : ¬ (l.read_flag ≠ 0 ∧ env.open_read l.read_ptr = -1) := fun h => hopen h.1 h.2
  simp only [h1, if_false]
  cases hfile : l.cmd_argv.headD none with
  | none => simp only; split_ifs <;> simp [execvp_calls]
  | some name => simp only; split_ifs <;> simp [execvp_calls]

theorem opened_child (env : Env) (l : Launch) (st : Int)
    (hopen : l.read_flag ≠ 0 → env.open_read l.read_ptr ≠ -1) :
    opened (child env l st).trace =
      (if l.read_flag ≠ 0 then [(l.read_ptr, false)] else []) ++
      (if l.write_flag ≠ 0 then [(l.write_ptr, true)] else []) := by
  unfold child
  have h1 : ¬ (l.read_flag ≠ 0 ∧ env.open_read l.read_ptr = -1) := fun h => hopen h.1 h.2
  simp only [h1, if_false]
  cases hfile : l.cmd_argv.headD none with
  | none => simp only; split_ifs <;> simp [opened]
  | some name => simp only; split_ifs <;> simp [opened]

/-- C3: for an invocation `t0 pre... m path rest...` whose program name `t0` is
not a built-in, where no token of `pre` is `<` or `>` and `m` is one of them
(so `m` is the first marker at a position of at least 1, and `path` follows
it), the scans of `parse_args` leave exactly `t0 pre...` as the argument list,
record `path` as the input path when `m` is `<` and as the output path when `m`
is `>`, and set exactly one of the two redirections; and the child
continuation, unless the input file cannot be opened, calls `execvp` once, with
that argument list, after opening `path` and no other file. -/
theorem C3_redirection (t0 : Str) (pre : List Str) (m path : Str) (rest : List Str)
    (toks : List Str) (htoks : toks = t0 :: (pre ++ m :: path :: rest))
    (hext : is_builtin t0 = false)
    (hpre : ∀ t ∈ pre, is_marker t = false) (hm : is_marker m = true) :
    ∃ l : Launch, scan_args (invocation toks) (toks.length + 1) = some l ∧
      argv_until_null l.cmd_argv = t0 :: pre ∧
      (m = "<".toList →
        l.read_flag = 1 ∧ l.read_ptr = some path ∧ l.write_flag = 0 ∧ l.write_ptr = none) ∧
      (m = ">".toList →
        l.read_flag = 0 ∧ l.read_ptr = none ∧ l.write_flag = 1 ∧ l.write_ptr = some path) ∧
      ∀ (env : Env) (st : Int), env.fork = 0 →
        (m = "<".toList → env.open_read (some path) ≠ -1) →
        execvp_calls (parse_args env (invocation toks) (toks.length + 1) st).trace =
          [(some t0, t0 :: pre)] ∧
        opened (parse_args env (invocation toks) (toks.length + 1) st).trace =
          [(some path, decide (m = ">".toList))] := by
  subst htoks
  have hm' : m = "<".toList ∨ m = ">".toList := by simpa [is_marker] using hm
  have hne : ¬ (">".toList = "<".toList) := by decide
  have hscan := scan_args_marker t0 pre m path rest hpre hm
  have huntil := argv_until_null_marker t0 pre m path rest
  have hlen : (t0 :: (pre ++ m :: path :: rest)).length + 1 =
      (pre ++ m :: path :: rest).length + 2 := by simp
  rw [hlen]
  generalize hL : (if (t0 :: (pre ++ m :: path :: rest)).getLast? = some "&".toList then
        { redirected m path
            ((invocation (t0 :: (pre ++ m :: path :: rest))).set (1 + pre.length) none) with
          background_flag := 1
          cmd_argv := ((invocation (t0 :: (pre ++ m :: path :: rest))).set (1 + pre.length)
            none).set (pre ++ m :: path :: rest).length none }
      else
        redirected m path
          ((invocation (t0 :: (pre ++ m :: path :: rest))).set (1 + pre.length) none)) = L
    at hscan
  have hA : argv_until_null L.cmd_argv = t0 :: pre := by
    rw [← hL]
    split
    · exact huntil.2
    · rw [redirected_cmd_argv]; exact huntil.1
  have hlt : m = "<".toList →
      L.read_flag = 1 ∧ L.read_ptr = some path ∧ L.write_flag = 0 ∧ L.write_ptr = none := by
    intro h
    subst h
    rw [← hL]
    split <;> simp [redirected]
  have hgt : m = ">".toList →
      L.read_flag = 0 ∧ L.read_ptr = none ∧ L.write_flag = 1 ∧ L.write_ptr = some path := by
    intro h
    subst h
    rw [← hL]
    split <;> simp [redirected, hne]
  refine ⟨L, hscan, hA, hlt, hgt, ?_⟩
  intro env st hfork hopen
  have hhead : L.cmd_argv.headD none = some t0 := by
    cases hc : L.cmd_argv with
    | nil => rw [hc] at hA; simp [argv_until_null] at hA
    | cons a A =>
      rw [hc] at hA
      cases a with
      | none => simp [argv_until_null] at hA
      | some s =>
        simp only [argv_until_null, List.cons.injEq] at hA
        simp [hA.1]
  have hpa : parse_args env (invocation (t0 :: (pre ++ m :: path :: rest)))
      ((pre ++ m :: path :: rest).length + 2) st =
      launch env (invocation (t0 :: (pre ++ m :: path :: rest)))
        ((pre ++ m :: path :: rest).length + 2) st := by
    unfold invocation
    exact parse_args_not_builtin env t0 _ _ st hext
  have ho : L.read_flag ≠ 0 → env.open_read L.read_ptr ≠ -1 := by
    intro hr
    rcases hm' with h | h
    · rw [(hlt h).2.1]; exact hopen h
    · exact absurd (hgt h).1 hr
  rw [hpa]
  unfold launch
  rw [hscan]
  simp only [hfork, lt_self_iff_false, if_false, if_true]
  rw [execvp_calls_child env L st ho, opened_child env L st ho, hhead, hA]
  refine ⟨rfl, ?_⟩
  rcases hm' with h | h
  · obtain ⟨h1, h2, h3, _⟩ := hlt h
    subst h
    simp [h1, h2, h3]
  · obtain ⟨h1, _, h3, h4⟩ := hgt h
    subst h
    simp [h1, h3, h4]

/-- C3 at `sort < infile`: the program receives the single argument `sort`,
and `infile` is the input path. -/
theorem C3_redirection_witness :
    is_builtin "sort".toList = false ∧ is_marker "<".toList = true ∧
    (scan_args (invocation ["sort".toList, "<".toList, "infile".toList]) 4).map
        (fun l => (argv_until_null l.cmd_argv, l.read_flag, l.read_ptr, l.write_flag)) =
      some (["sort".toList], 1, some "infile".toList, 0) ∧
    execvp_calls (parse_args child_env
      (invocation ["sort".toList, "<".toList, "infile".toList]) 4 0).trace =
        [(some "sort".toList, ["sort".toList])] ∧
    opened (parse_args child_env
      (invocation ["sort".toList, "<".toList, "infile".toList]) 4 0).trace =
        [(some "infile".toList, false)] := by
  obtain ⟨l, h1, h2, h3, _, h5⟩ :=
    C3_redirection "sort".toList [] "<".toList "infile".toList []
      ["sort".toList, "<".toList, "infile".toList] rfl (by decide) (by simp) (by decide)
  obtain ⟨e1, e2⟩ := h5 child_env 0 rfl (fun _ => by decide)
  refine ⟨by decide, by decide, ?_, e1, e2⟩
  have h1' : scan_args (invocation ["sort".toList, "<".toList, "infile".toList]) 4 = some l := h1
  rw [h1', Option.map_some', h2, (h3 rfl).1, (h3 rfl).2.1, (h3 rfl).2.2.1]

theorem redirect_ok_cases (args : List Str) (h : redirect_ok args = true) :
    (∀ t ∈ args, is_marker t = false) ∨
    ∃ (pre : List Str) (m path : Str) (rest : List Str),
      args = pre ++ m :: path :: rest ∧ (∀ t ∈ pre, is_marker t = false) ∧
        is_marker m = true := by
  induction args with
  | nil => left; simp
  | cons t rest ih =>
    by_cases ht : is_marker t = true
    · right
      simp only [redirect_ok, ht, if_true] at h
      cases rest with
      | nil => simp at h
      | cons p rest => exact ⟨[], t, p, rest, rfl, by simp, ht⟩
    · have ht' : is_marker t = false := by simpa using ht
      simp only [redirect_ok, ht', Bool.false_eq_true, if_false] at h
      rcases ih h with h1 | ⟨pre, m, path, rest', h1, h2, h3⟩
      · left
        intro x hx
        rcases List.mem_cons.mp hx with hx | hx
        · rw [hx]; exact ht'
        · exact h1 x hx
      · right
        refine ⟨t :: pre, m, path, rest', by rw [h1]; rfl, ?_, h3⟩
        intro x hx
        rcases List.mem_cons.mp hx with hx | hx
        · rw [hx]; exact ht'
        · exact h2 x hx

/-- With a well-formed redirection the scans succeed, and the background flag
is set exactly when the last token is `&`. -/
theorem scan_args_ok (t0 : Str) (args : List Str) (hok : redirect_ok args = true) :
    ∃ l : Launch, scan_args (invocation (t0 :: args)) (args.length + 2) = some l ∧
      l.background_flag = (if (t0 :: args).getLast? = some "&".toList then 1 else 0) := by
  rcases redirect_ok_cases args hok with h | ⟨pre, m, path, rest, h1, h2, h3⟩
  · refine ⟨_, scan_args_no_marker t0 args h, ?_⟩
    split <;> rfl
  · subst h1
    refine ⟨_, scan_args_marker t0 pre m path rest h2 h3, ?_⟩
    split
    · rfl
    · unfold redirected; split <;> rfl

theorem not_WIFEXITED_of_WIFSIGNALED (status : Int) (h : WIFSIGNALED status = true) :
    WIFEXITED status = false := by
  unfold WIFSIGNALED at h
  unfold WIFEXITED WTERMSIG
  simp only [decide_eq_true_eq] at h
  simp only [beq_eq_false_iff_ne, ne_eq]
  intro h0
  rw [h0] at h
  simp at h

theorem WEXITSTATUS_W_EXITCODE (c : Int) (h0 : 0 ≤ c) (h1 : c < 256) :
    WIFEXITED (W_EXITCODE c 0) = true ∧ WEXITSTATUS (W_EXITCODE c 0) = c := by
  unfold WIFEXITED WTERMSIG WEXITSTATUS W_EXITCODE
  simp only [beq_iff_eq]
  constructor <;> omega

/-- C4: for an external invocation `t0 args...` whose first redirection marker
among `args`, if any, is followed by a token, in the parent continuation
(`fork` returned a positive pid) `parse_args` returns 0; if the last token is
`&` it does not wait and leaves the register unchanged; otherwise it waits
once, for that child, and the register becomes the child's exit code when the
status word says the child exited (in particular `c` for a child that ended
with `exit(c)`), and is left unchanged when it says the child was killed by a
signal. -/
theorem C4_parent (env : Env) (t0 : Str) (args : List Str) (st : Int)
    (hext : is_builtin t0 = false) (hok : redirect_ok args = true) (hfork : 0 < env.fork) :
    (parse_args env (invocation (t0 :: args)) ((t0 :: args).length + 1) st).ending =
      .returned 0 ∧
    forks (parse_args env (invocation (t0 :: args)) ((t0 :: args).length + 1) st).trace = 1 ∧
    ((t0 :: args).getLast? = some "&".toList →
      (parse_args env (invocation (t0 :: args)) ((t0 :: args).length + 1) st).exit_status = st ∧
      waited (parse_args env (invocation (t0 :: args)) ((t0 :: args).length + 1) st).trace = []) ∧
    ((t0 :: args).getLast? ≠ some "&".toList →
      waited (parse_args env (invocation (t0 :: args)) ((t0 :: args).length + 1) st).trace =
        [env.fork] ∧
      (WIFEXITED env.wait_status = true →
        (parse_args env (invocation (t0 :: args)) ((t0 :: args).length + 1) st).exit_status =
          WEXITSTATUS env.wait_status) ∧
      (∀ c : Int, 0 ≤ c → c < 256 → env.wait_status = W_EXITCODE c 0 →
        (parse_args env (invocation (t0 :: args)) ((t0 :: args).length + 1) st).exit_status = c) ∧
      (WIFSIGNALED env.wait_status = true →
        (parse_args env (invocation (t0 :: args)) ((t0 :: args).length + 1) st).exit_status =
          st)) := by
  obtain ⟨l, hl, hbg⟩ := scan_args_ok t0 args hok
  have hpa : parse_args env (invocation (t0 :: args)) ((t0 :: args).length + 1) st =
      parent env l st := by
    unfold invocation
    rw [List.map_cons, List.cons_append, parse_args_not_builtin env t0 _ _ st hext]
    unfold launch
    have hl' : scan_args (some t0 :: (List.map some args ++ [none]))
        ((t0 :: args).length + 1) = some l := hl
    rw [hl']
    simp only [hfork, if_true]
  rw [hpa]
  unfold parent
  by_cases hamp : (t0 :: args).getLast? = some "&".toList
  · rw [if_pos hamp] at hbg
    simp [hbg, hamp, forks, waited]
  · rw [if_neg hamp] at hbg
    simp only [hbg, ne_eq, not_true_eq_false, if_false, hamp, false_implies, not_false_eq_true,
      true_implies, true_and]
    refine ⟨by simp [forks], by simp [waited], ?_, ?_, ?_⟩
    · intro h; simp [h]
    · intro c h0 h1 hc
      obtain ⟨e1, e2⟩ := WEXITSTATUS_W_EXITCODE c h0 h1
      rw [hc]; simp [e1, e2]
    · intro h
      simp [not_WIFEXITED_of_WIFSIGNALED _ h]

/-- C4 at the foreground command `false`, whose child ends with `exit(1)`: the
register, 0 before, is 1 after. -/
theorem C4_parent_witness :
    is_builtin "false".toList = false ∧ redirect_ok [] = true ∧ 0 < parent_env.fork ∧
    (parse_args parent_env (invocation ["false".toList]) 2 0).ending = .returned 0 ∧
    (parse_args parent_env (invocation ["false".toList]) 2 0).exit_status = 1 :=
  ⟨by decide, by decide, by decide,
    (C4_parent parent_env "false".toList [] 0 (by decide) (by decide) (by decide)).1,
    ((C4_parent parent_env "false".toList [] 0 (by decide) (by decide) (by decide)).2.2.2
      (by decide)).2.2.1 1 (by decide) (by decide) rfl⟩

/-- Without a redirection marker among the arguments, a final `&` after at
least one other token is removed: the program receives every token but the
last. -/
theorem scan_args_background (t0 : Str) (args : List Str) (hne : args ≠ [])
    (hargs : ∀ t ∈ args, is_marker t = false)
    (hamp : (t0 :: args).getLast? = some "&".toList) :
    ∃ l : Launch, scan_args (invocation (t0 :: args)) (args.length + 2) = some l ∧
      l.background_flag = 1 ∧ argv_until_null l.cmd_argv = t0 :: args.dropLast := by
  refine ⟨_, scan_args_no_marker t0 args hargs, ?_⟩
  rw [if_pos hamp]
  refine ⟨rfl, ?_⟩
  have hsplit : t0 :: args = (t0 :: args.dropLast) ++ [args.getLast hne] := by
    rw [List.cons_append, List.dropLast_append_getLast hne]
  have hlen : args.length = (t0 :: args.dropLast).length := by
    simp only [List.length_cons, List.length_dropLast]
    have : 0 < args.length := List.length_pos.mpr hne
    omega
  have hmid := set_mid (t0 :: args.dropLast) (args.getLast hne) [] [none] none
  show argv_until_null ((invocation (t0 :: args)).set args.length none) = t0 :: args.dropLast
  unfold invocation
  rw [hlen]
  conv_lhs => rw [hsplit]
  rw [hmid]
  exact argv_until_null_map_some _ _

/-- Built-ins never fork. -/
theorem forks_parse_args_builtin (env : Env) (t0 : Str) (rest : List (Option Str))
    (n : Nat) (st : Int) (hb : is_builtin t0 = true) :
    forks (parse_args env (some t0 :: rest) n st).trace = 0 := by
  have h : t0 = "exit".toList ∨ t0 = "cd".toList ∨ t0 = "status".toList ∨
      t0.head? = some '#' ∨ t0 = [] := by
    simpa [is_builtin] using hb
  unfold parse_args
  simp only [List.getElem?_cons_zero]
  by_cases h1 : t0 = "exit".toList
  · rw [if_pos h1]; rfl
  · rw [if_neg h1]
    by_cases h2 : t0 = "cd".toList
    · rw [if_pos h2]
      cases (some t0 :: rest)[1]? with
      | none => rfl
      | some a1 =>
        dsimp only
        split_ifs <;> simp [forks]
    · rw [if_neg h2]
      by_cases h3 : t0 = "status".toList
      · rw [if_pos h3]; simp [forks]
      · have h4 : t0.head? = some '#' ∨ t0 = [] := by
          rcases h with h | h | h | h
          · exact absurd h h1
          · exact absurd h h2
          · exact absurd h h3
          · exact h
        rw [if_neg h3, if_pos h4]; rfl

/-! ## Built-ins and return value -/

theorem parse_args_exit (env : Env) (rest : List (Option Str)) (argc : Nat) (st : Int) :
    parse_args env (some "exit".toList :: rest) argc st = ⟨.returned 1, st, []⟩ := by
  simp [parse_args]

/-- In the parent continuation, and for every built-in, a return value other
than 0 comes from `exit` alone; the only other source is the child
continuation after a failed `execvp`. -/
theorem parse_args_returned_nonzero (env : Env) (cmd_argv : List (Option Str)) (argc : Nat)
    (st v : Int) (h : (parse_args env cmd_argv argc st).ending = .returned v) (hv : v ≠ 0) :
    cmd_argv[0]? = some (some "exit".toList) ∨ (env.fork = 0 ∧ env.execvp_fails = true) := by
  have hz : ∀ {e : Ending}, e = .returned v → e ≠ .returned 0 := by
    intro e he h0
    rw [he] at h0
    exact hv (by simpa using h0)
  unfold parse_args at h
  split at h
  · rename_i a0 ha0
    by_cases h1 : a0 = "exit".toList
    · left; rw [ha0, h1]
    · right
      simp only [h1, if_false] at h
      by_cases h2 : a0 = "cd".toList
      · simp only [h2, if_true] at h
        split at h
        · simp at h
        · split_ifs at h <;> exact absurd rfl (hz h)
      · simp only [h2, if_false] at h
        by_cases h3 : a0 = "status".toList
        · simp only [h3, if_true] at h
          exact absurd rfl (hz h)
        · simp only [h3, if_false] at h
          by_cases h4 : a0.head? = some '#' ∨ a0 = []
          · simp only [h4, if_true] at h
            exact absurd rfl (hz h)
          · simp only [h4, if_false] at h
            unfold launch at h
            split at h
            · simp at h
            · by_cases hp : 0 < env.fork
              · simp only [hp, if_true] at h
                unfold parent at h
                split_ifs at h <;> exact absurd rfl (hz h)
              · simp only [hp, if_false] at h
                by_cases hc : env.fork = 0
                · refine ⟨hc, ?_⟩
                  simp only [hc, if_true] at h
                  by_cases hf : env.execvp_fails = true
                  · exact hf
                  · exfalso
                    unfold child at h
                    simp only [hf, if_false] at h
                    split at h
                    · simp at h
                    · split at h <;> simp at h
                · simp only [hc, if_false] at h
                  simp at h
  · simp at h

/-- C7: for every value `v` of the register, whatever follows the token
`status` and whatever the operating system answers, `parse_args` prints
`exit value v`, does nothing else (no `fork`), sets the register to 0 and
returns 0; a second `status` right after it therefore prints `exit value 0`.
The same holds for two passes of the prompt loop on the line `status`, where
the output of `reap_children` comes first. -/
theorem C7_status (env env2 : Env) (rest rest2 : List (Option Str)) (argc argc2 : Nat)
    (sys sys2 : Sys) (v : Int) :
    parse_args env (some "status".toList :: rest) argc v =
      ⟨.returned 0, 0, [.printf "exit value %d\n" [.int v]]⟩ ∧
    parse_args env2 (some "status".toList :: rest2) argc2
        (parse_args env (some "status".toList :: rest) argc v).exit_status =
      ⟨.returned 0, 0, [.printf "exit value %d\n" [.int 0]]⟩ ∧
    main_pass sys v "status".toList =
      ⟨.again, 0, reap_children sys.reap_pid sys.reap_status ++
        [.printf "exit value %d\n" [.int v]], true, true⟩ ∧
    main_pass sys2 (main_pass sys v "status".toList).exit_status "status".toList =
      ⟨.again, 0, reap_children sys2.reap_pid sys2.reap_status ++
        [.printf "exit value %d\n" [.int 0]], true, true⟩ := by
  have hp : ∀ (e : Env) (r : List (Option Str)) (n : Nat) (w : Int),
      parse_args e (some "status".toList :: r) n w =
        ⟨.returned 0, 0, [.printf "exit value %d\n" [.int w]]⟩ := by
    intro e r n w
    have h1 : ¬ ("status".toList = "exit".toList) := by decide
    have h2 : ¬ ("status".toList = "cd".toList) := by decide
    unfold parse_args
    simp only [List.getElem?_cons_zero, h1, h2, if_false, if_true]
  have hg : argv_strings (get_input "status".toList) = [some "status".toList, none] := by
    decide
  have hc : (get_input "status".toList).cmd_argc = 2 := by decide
  have hm : ∀ (s : Sys) (w : Int), main_pass s w "status".toList =
      ⟨.again, 0, reap_children s.reap_pid s.reap_status ++
        [.printf "exit value %d\n" [.int w]], true, true⟩ := by
    intro s w
    unfold main_pass
    simp only [hc, hg, hp]
    simp
  refine ⟨hp _ _ _ _, ?_, hm _ _, ?_⟩
  · rw [hp env]; exact hp _ _ _ _
  · rw [hm sys]; exact hm _ _

/-! ## Evaluations at concrete inputs -/

/-- C5 fails on the code: in the child continuation of `nosuchcmd`, after
`execvp` failed, `parse_args` does `return (1)`, not `exit(1)`: the child goes
back to `main`, leaves the loop and ends with `return 0`, exit status 0. The
parent that waits for it sets the register (7 before) to 0, not to 1. The
sibling failure path, an input file that cannot be opened, does end the child
with `exit(1)`. -/
theorem C5_failed_exec_exit_status :
    execvp_calls (main_pass ⟨-1, 0, failing_exec_env⟩ 7 "nosuchcmd".toList).trace =
      [(some "nosuchcmd".toList, ["nosuchcmd".toList])] ∧
    process_exit_status (main_pass ⟨-1, 0, failing_exec_env⟩ 7 "nosuchcmd".toList) = some 0 ∧
    (main_pass ⟨-1, 0, parent_env_child_zero⟩ 7 "nosuchcmd".toList).exit_status = 0 ∧
    process_exit_status (main_pass ⟨-1, 0, failing_open_env⟩ 7 "sort < nofile".toList) =
      some 1 := by
  decide

/-- C6 fails on the code: the first token of `nosuchcmd` is not `exit`, yet in
the child continuation, after `execvp` failed, `parse_args` returns 1, which
ends the prompt loop of that process. -/
theorem C6_child_returns_one :
    "nosuchcmd".toList ≠ "exit".toList ∧
    (parse_args failing_exec_env (invocation ["nosuchcmd".toList]) 2 0).ending = .returned 1 ∧
    (main_pass ⟨-1, 0, failing_exec_env⟩ 0 "nosuchcmd".toList).next = .main_returned 0 := by
  decide

/-- C9 fails on the code: for the line `&` the only token is the background
marker at slot `cmd_argc - 2 = 0`; `parse_args` nulls that slot, and the child
calls `execvp` with a null program name and an empty argument list. -/
theorem C9_null_program_name :
    argv_strings (get_input "&".toList) = [some "&".toList, none] ∧
    is_builtin "&".toList = false ∧
    scan_args [some "&".toList, none] 2 = some ⟨0, none, 0, none, 1, [none, none]⟩ ∧
    execvp_calls (main_pass ⟨-1, 0, child_env⟩ 0 "&".toList).trace = [(none, [])] := by
  decide

/-- After `get_input` the first slot is never null: it points to offset 0. -/
theorem get_input_first_slot (line : List Char) :
    (get_input line).cmd_argv.head? = some (some 0) := by
  have step : ∀ (k : Nat) (l : List Nat) (s : Tokenized), s.cmd_argv.head? = some (some 0) →
      (l.foldl (get_input_step k) s).cmd_argv.head? = some (some 0) := by
    intro k l
    induction l with
    | nil => intro s hs; exact hs
    | cons i l ih =>
      intro s hs
      rw [List.foldl_cons]
      apply ih
      unfold get_input_step
      dsimp only
      split_ifs
      · cases hc : s.cmd_argv with
        | nil => rw [hc] at hs; simp at hs
        | cons a A => rw [hc] at hs; simpa using hs
      · exact hs
      · exact hs
      · exact hs
  unfold get_input
  have h := step (strlen line) (List.range' 1 (strlen line - 1))
    { buf := line, cmd_argv := [some 0], cmd_argc := 1 } rfl
  dsimp only
  cases hc : (List.foldl (get_input_step (strlen line))
      { buf := line, cmd_argv := [some 0], cmd_argc := 1 }
      (List.range' 1 (strlen line - 1))).cmd_argv with
  | nil => rw [hc] at h; simp at h
  | cons a A => rw [hc] at h; simpa using h

/-! ## `reap_children` -/

/-- When `waitpid` returned -1, `reap_children` prints nothing. -/
theorem reap_children_no_child (status : Int) : printed (reap_children (-1) status) = [] := by
  simp [reap_children, printed]

/-- It never prints more than one line. -/
theorem reap_children_at_most_one (exit_pid status : Int) :
    (printed (reap_children exit_pid status)).length ≤ 1 := by
  unfold reap_children
  by_cases h : WIFSIGNALED status = true
  · simp only [not_WIFEXITED_of_WIFSIGNALED status h, h]
    split_ifs <;> simp_all [printed]
  · simp only [h]
    split_ifs <;> simp_all [printed]

/-- C8 fails on the code: when `waitpid` returned 0 (children exist, none has
changed state) and the variable `status`, which `waitpid` did not write, holds
0, `reap_children` prints a completion line for pid 0; the guard is
`exit_pid != -1`. -/
theorem C8_reports_pid_zero :
    printed (reap_children 0 0) =
      [.printf "background pid %d is done: exit value %d\n" [.int 0, .int 0]] ∧
    printed (reap_children 0 (W_EXITCODE 3 0)) =
      [.printf "background pid %d is done: exit value %d\n" [.int 0, .int 3]] := by
  decide

/-! ## The "no input" branch of `main` -/

/-- The pass never takes the "no input" branch: `reap_children` and
`parse_args` are called for every line. -/
theorem main_pass_never_skips (sys : Sys) (st : Int) (line : List Char) :
    (main_pass sys st line).reaped = true ∧ (main_pass sys st line).parsed = true := by
  have h := two_le_get_input_argc line
  unfold main_pass
  have h1 : ¬ ((get_input line).cmd_argc = 1) := by omega
  simp only [h1, if_false, and_self]

theorem forks_reap_children (exit_pid status : Int) :
    forks (reap_children exit_pid status) = 0 := by
  unfold reap_children forks
  split_ifs <;> simp

/-- What the pass does for the empty line: `get_input` returns the count 2,
with an empty first token, and `parse_args` takes the branch of the empty
command, which sets the register to 0 and returns 0; no process is spawned
and the loop runs again. -/
theorem main_pass_empty_line (sys : Sys) (st : Int) :
    (get_input []).cmd_argc = 2 ∧
    argv_strings (get_input []) = [some [], none] ∧
    parse_args sys.env (argv_strings (get_input [])) (get_input []).cmd_argc st =
      ⟨.returned 0, 0, []⟩ ∧
    (main_pass sys st []).next = .again ∧
    (main_pass sys st []).exit_status = 0 ∧
    forks (main_pass sys st []).trace = 0 := by
  have hg : argv_strings (get_input []) = [some [], none] := by decide
  have hc : (get_input []).cmd_argc = 2 := by decide
  have hp : parse_args sys.env [some [], none] 2 st = ⟨.returned 0, 0, []⟩ := by
    simp [parse_args]
  refine ⟨hc, hg, by rw [hg, hc]; exact hp, ?_, ?_, ?_⟩
  · unfold main_pass
    simp only [hc, hg, hp]
    simp
  · unfold main_pass
    simp only [hc, hg, hp]
    simp
  · unfold main_pass
    simp only [hc, hg, hp]
    simp [forks_reap_children]

/-- C2 fails on the code: the test `cmd_argc == 1` of `main` (lines 44-46,
"no input") never holds, because `get_input` returns 2 for the empty line and
for the line of one space. For the line of one space `reap_children` and
`parse_args` are both called and the pass forks a process, whose child calls
`execvp` for a program named by that space; the parent waits for it (after
the wait for any child in `reap_children`) and the register, 5 before, holds
the exit code of that child afterwards (0 here).
For the empty line both functions are called as well and the register, 5
before, is 0 after. -/
theorem C2_no_input_branch_missed :
    (get_input [' ']).cmd_argc = 2 ∧
    (main_pass parent_sys 5 [' ']).reaped = true ∧
    (main_pass parent_sys 5 [' ']).parsed = true ∧
    forks (main_pass parent_sys 5 [' ']).trace = 1 ∧
    waited (main_pass ⟨-1, 0, parent_env_child_zero⟩ 5 [' ']).trace = [-1, 4242] ∧
    (main_pass ⟨-1, 0, parent_env_child_zero⟩ 5 [' ']).exit_status = 0 ∧
    execvp_calls (main_pass ⟨-1, 0, child_env⟩ 5 [' ']).trace = [(some [' '], [[' ']])] ∧
    (get_input []).cmd_argc = 2 ∧
    (main_pass parent_sys 5 []).reaped = true ∧
    (main_pass parent_sys 5 []).parsed = true ∧
    (main_pass parent_sys 5 []).exit_status = 0 := by
  decide

end SimpleShell
